import Mathlib

/-!
Shallow embedding of `src/clustering/administration/main/options.cc`
(RethinkDB's declarative command-line option parser and help formatter),
with theorems checking the natural-language specification against it.

Strings are Lean `String`s; `std::vector` is `List`; the ordered
`std::map<std::string, std::vector<std::string>>` is an association list
with unique keys, with `std::map::insert` (which never overwrites an
existing key) and `operator[]` modelled explicitly.  `size_t` arithmetic
is `Nat`, with an explicit wrap-around model (`size_sub`) at the one
subtraction site where underflow matters.
-/

namespace Options

/-- SIZE_MAX on the 64-bit targets the code is built for. -/
def SIZE_MAX : Nat := 2 ^ 64 - 1

/-- appearance_t from options.hpp: the five cardinality policies. -/
inductive appearance_t where
  | MANDATORY
  | MANDATORY_REPEAT
  | OPTIONAL
  | OPTIONAL_REPEAT
  | OPTIONAL_NO_PARAMETER
deriving DecidableEq, Repr

/-- option_t from options.hpp: one declared option. `names` holds the
accepted spellings, the first being the canonical name. -/
structure option_t where
  names : List String
  min_appearances : Nat
  max_appearances : Nat
  no_parameter : Bool
  default_values : List String
deriving DecidableEq, Repr

/-- The canonical name of an option: `names[0]` in the source. -/
def option_t.canonical (o : option_t) : String := o.names.headD ""

/-- option_t::option_t(names, appearance): the defaultless constructor
(options.cc lines 9-41); `default_values` is empty. -/
def option_t.make (names : List String) (a : appearance_t) : option_t :=
  match a with
  | .MANDATORY =>
    { names := names, min_appearances := 1, max_appearances := 1,
      no_parameter := false, default_values := [] }
  | .MANDATORY_REPEAT =>
    { names := names, min_appearances := 1, max_appearances := SIZE_MAX,
      no_parameter := false, default_values := [] }
  | .OPTIONAL =>
    { names := names, min_appearances := 0, max_appearances := 1,
      no_parameter := false, default_values := [] }
  | .OPTIONAL_REPEAT =>
    { names := names, min_appearances := 0, max_appearances := SIZE_MAX,
      no_parameter := false, default_values := [] }
  | .OPTIONAL_NO_PARAMETER =>
    { names := names, min_appearances := 0, max_appearances := 1,
      no_parameter := true, default_values := [] }

/-- option_t::option_t(names, appearance, default_value): the
default-carrying constructor (options.cc lines 44-65).  `default_values`
is the one-element vector holding the supplied default.  The policies
that hit `unreachable()` in the source yield `none` (a fatal
programming error, not a parse failure). -/
def option_t.makeWithDefault (names : List String) (a : appearance_t)
    (default_value : String) : Option option_t :=
  match a with
  | .OPTIONAL =>
    some { names := names, min_appearances := 0, max_appearances := 1,
           no_parameter := false, default_values := [default_value] }
  | .OPTIONAL_REPEAT =>
    some { names := names, min_appearances := 0, max_appearances := SIZE_MAX,
           no_parameter := false, default_values := [default_value] }
  | _ => none

/-- looks_like_option_name (options.cc lines 67-69): `str[0] == '-'`
(an empty argv string has `str[0] == '\0'`, so it does not look like an
option name). -/
def looks_like_option_name (s : String) : Bool :=
  match s.data with
  | c :: _ => c = '-'
  | [] => false

/-- find_option (options.cc lines 71-80): first declared option any of
whose names equals the token exactly. -/
def find_option (option_name : String) (options : List option_t) :
    Option option_t :=
  match options with
  | [] => none
  | o :: rest =>
    if option_name ∈ o.names then some o else find_option option_name rest

/-- The parse result map: canonical name to accumulated values.  Models
`std::map<std::string, std::vector<std::string>>`; keys are kept unique. -/
abbrev values_map := List (String × List String)

/-- Map lookup. -/
def mapLookup (m : values_map) (k : String) : Option (List String) :=
  match m with
  | [] => none
  | (k', v) :: rest => if k' = k then some v else mapLookup rest k

/-- The value list held for key `k`, the empty list when absent: what
`names_by_values[official_name]` dereferences to in the success path. -/
def lookupD (m : values_map) (k : String) : List String :=
  (mapLookup m k).getD []

/-- Store `v` for key `k`: update in place when present, append when
absent.  Together with `lookupD` this models mutating
`names_by_values[official_name]`. -/
def mapSet (m : values_map) (k : String) (v : List String) : values_map :=
  match m with
  | [] => [(k, v)]
  | (k', v') :: rest =>
    if k' = k then (k, v) :: rest else (k', v') :: mapSet rest k v

/-- `std::map::insert`: inserts only when the key is absent, never
overwrites. -/
def mapInsert (m : values_map) (k : String) (v : List String) : values_map :=
  match mapLookup m k with
  | some _ => m
  | none => m ++ [(k, v)]

/-- parse_error_t, split by throw site (options.cc lines 103, 105, 115,
125, 132); each constructor carries the strings interpolated into the
message. -/
inductive parse_error_t where
  | UnrecognizedOption (tok : String)
  | UnexpectedValue (tok : String)
  | TooManyAppearances (tok : String)
  | MissingParameter (tok : String)
  | ParameterLooksLikeOption (tok param : String)
deriving DecidableEq, Repr

/-- The token-consuming loop of do_parse_command_line (options.cc lines
90-137).  `collect` is `unrecognized_out != NULL`.  `m` and `unrec` are
the local accumulation collections. -/
def parse_loop (options : List option_t) (collect : Bool) :
    List String → values_map → List String →
    Except parse_error_t (values_map × List String)
  | [], m, unrec => .ok (m, unrec)
  | tok :: rest, m, unrec =>
    match find_option tok options with
    | none =>
      if collect then
        parse_loop options collect rest m (unrec ++ [tok])
      else if looks_like_option_name tok then
        .error (.UnrecognizedOption tok)
      else
        .error (.UnexpectedValue tok)
    | some opt =>
      if (lookupD m opt.canonical).length = opt.max_appearances then
        .error (.TooManyAppearances tok)
      else if opt.no_parameter then
        parse_loop options collect rest
          (mapSet m opt.canonical (lookupD m opt.canonical ++ [""])) unrec
      else
        match rest with
        | [] => .error (.MissingParameter tok)
        | param :: rest2 =>
          if looks_like_option_name param then
            .error (.ParameterLooksLikeOption tok param)
          else
            parse_loop options collect rest2
              (mapSet m opt.canonical (lookupD m opt.canonical ++ [param]))
              unrec

/-- The default-filling pass of do_parse_command_line (options.cc lines
139-144): for each option with `min_appearances == 0`, insert its
canonical name with its default values; `std::map::insert` leaves
already-present keys untouched. -/
def insert_defaults (options : List option_t) (m : values_map) : values_map :=
  match options with
  | [] => m
  | o :: rest =>
    insert_defaults rest
      (if o.min_appearances = 0 then mapInsert m o.canonical o.default_values
       else m)

/-- do_parse_command_line (options.cc lines 82-150), success value being
the pair (names_by_values, unrecognized). -/
def do_parse_command_line (tokens : List String) (options : List option_t)
    (collect : Bool) : Except parse_error_t (values_map × List String) :=
  match parse_loop options collect tokens [] [] with
  | .error e => .error e
  | .ok (m, unrec) => .ok (insert_defaults options m, unrec)

/-- do_parse_command_line with its out-parameters made explicit:
`unrec_out` is `none` when the caller passed NULL (which also decides
whether unrecognized tokens are collected).  Results are accumulated in
local collections and swapped into the outs only after the whole pass
completes, exactly as in the source (options.cc lines 87-88, 146-149). -/
def do_parse_command_line_outs (tokens : List String)
    (options : List option_t) (map_out : values_map)
    (unrec_out : Option (List String)) :
    Except parse_error_t Unit × values_map × Option (List String) :=
  match parse_loop options unrec_out.isSome tokens [] [] with
  | .error e => (.error e, map_out, unrec_out)
  | .ok (m, unrec) =>
    (.ok (), insert_defaults options m,
     match unrec_out with
     | none => none
     | some _ => some unrec)

/-- isspace in the default C locale: space, tab, newline, vertical tab,
form feed, carriage return. -/
def isspace_char (c : Char) : Bool :=
  c = ' ' || c = '\t' || c = '\n' || c = '\x0b' || c = '\x0c' || c = '\r'

/-- The scanning loops of split_by_spaces (options.cc lines 172-188) as
a single pass over the character list: in state `none` the scanner is
inside a whitespace run (the `while isspace` loop); in state `some w`
it is inside a word whose characters so far are `w` (the
`while !isspace` loop), and the word is emitted when the run ends. -/
def split_words_go : Option (List Char) → List Char → List (List Char)
  | none, [] => []
  | some w, [] => [w]
  | none, c :: cs =>
    if isspace_char c then split_words_go none cs
    else split_words_go (some [c]) cs
  | some w, c :: cs =>
    if isspace_char c then w :: split_words_go none cs
    else split_words_go (some (w ++ [c])) cs

/-- split_by_spaces (options.cc lines 166-191). -/
def split_by_spaces (s : String) : List String :=
  (split_words_go none s.data).map String.mk

/-- The word-packing loop of word_wrap (options.cc lines 200-216): `ret`
is the accumulated lines, `cur` the current line, and the final
current line is always pushed (an empty word list yields one empty
line). -/
def wrap_loop (width : Nat) :
    List String → List String → String → List String
  | [], ret, cur => ret ++ [cur]
  | w :: ws, ret, cur =>
    if cur.isEmpty then
      wrap_loop width ws ret w
    else if cur.length + 1 + w.length ≤ width then
      wrap_loop width ws ret (cur ++ " " ++ w)
    else
      wrap_loop width ws (ret ++ [cur]) w

/-- word_wrap (options.cc lines 193-219). -/
def word_wrap (s : String) (width : Nat) : List String :=
  wrap_loop width (split_by_spaces s) [] ""

/-- help_line_t from options.hpp: a syntax description and a blurb. -/
structure help_line_t where
  syntax_description : String
  blurb : String
deriving DecidableEq, Repr

/-- help_section_t from options.hpp: a section name and its lines. -/
structure help_section_t where
  section_name : String
  help_lines : List help_line_t
deriving DecidableEq, Repr

/-- The maximum syntax-description length across every line of every
section (options.cc lines 222-228). -/
def max_syntax_description_length (help : List help_section_t) : Nat :=
  help.foldl
    (fun acc sec =>
      sec.help_lines.foldl
        (fun acc2 line => max acc2 line.syntax_description.length) acc)
    0

/-- summary_width (options.cc line 230): `max<ssize_t>(30, 79 - maxlen)`,
computed in signed arithmetic so a huge syntax column clamps to 30. -/
def summary_width (help : List help_section_t) : Nat :=
  (max 30 (79 - (max_syntax_description_length help : Int))).toNat

/-- indent_width (options.cc line 233): two spaces before the syntax
column and two after it. -/
def indent_width (help : List help_section_t) : Nat :=
  4 + max_syntax_description_length help

/-- Wrapping size_t subtraction: `a - b` reduced modulo 2^64, as the
unsigned arithmetic at options.cc line 247 computes it. -/
def size_sub (a b : Nat) : Nat :=
  (((a : Int) - (b : Int)) % (2 ^ 64 : Int)).toNat

/-- The space padding appended after a line's syntax description:
`std::string(indent_width - (2 + syntax_description.size()), ' ')`
at options.cc line 247, with the size_t subtraction modelled exactly. -/
def line_padding (iw : Nat) (line : help_line_t) : Nat :=
  size_sub iw (2 + line.syntax_description.length)

/-- The output rows of one help line (options.cc lines 240-254): the
first wrapped blurb part follows the syntax description, later parts
are indented by the full indent width. -/
def format_line (iw sw : Nat) (line : help_line_t) : String :=
  ((word_wrap line.blurb sw).enum.map
    (fun p =>
      (if p.1 = 0 then
        "  " ++ line.syntax_description ++
          String.mk (List.replicate (line_padding iw line) ' ')
       else
        String.mk (List.replicate iw ' ')) ++ p.2 ++ "\n")).foldl
    (· ++ ·) ""

/-- format_help (options.cc lines 221-260). -/
def format_help (help : List help_section_t) : String :=
  let sw := summary_width help
  let iw := indent_width help
  help.foldl
    (fun acc sec =>
      (sec.help_lines.foldl
        (fun acc2 line => acc2 ++ format_line iw sw line)
        (acc ++ sec.section_name ++ ":\n")) ++ "\n")
    ""

/-- Reachability between states of the token-consuming loop: one step
per non-failing iteration of the `for` loop in do_parse_command_line.
`Reaches options collect toks m u toks2 m2 u2` says the loop, started
on remaining tokens `toks` with accumulated map `m` and unrecognized
list `u`, later finds itself at remaining tokens `toks2` with
accumulators `m2` and `u2`. -/
inductive Reaches (options : List option_t) (collect : Bool) :
    List String → values_map → List String →
    List String → values_map → List String → Prop where
  | refl (toks : List String) (m : values_map) (u : List String) :
      Reaches options collect toks m u toks m u
  | skip (tok : String) (rest : List String) (m : values_map)
      (u toks2 : List String) (m2 : values_map) (u2 : List String)
      (hfind : find_option tok options = none) (hcol : collect = true)
      (htail : Reaches options collect rest m (u ++ [tok]) toks2 m2 u2) :
      Reaches options collect (tok :: rest) m u toks2 m2 u2
  | flag (tok : String) (rest : List String) (m : values_map)
      (u : List String) (opt : option_t) (toks2 : List String)
      (m2 : values_map) (u2 : List String)
      (hfind : find_option tok options = some opt)
      (hroom : (lookupD m opt.canonical).length ≠ opt.max_appearances)
      (hnp : opt.no_parameter = true)
      (htail : Reaches options collect rest
        (mapSet m opt.canonical (lookupD m opt.canonical ++ [""])) u
        toks2 m2 u2) :
      Reaches options collect (tok :: rest) m u toks2 m2 u2
  | value (tok param : String) (rest : List String) (m : values_map)
      (u : List String) (opt : option_t) (toks2 : List String)
      (m2 : values_map) (u2 : List String)
      (hfind : find_option tok options = some opt)
      (hroom : (lookupD m opt.canonical).length ≠ opt.max_appearances)
      (hnp : opt.no_parameter = false)
      (hparam : looks_like_option_name param = false)
      (htail : Reaches options collect rest
        (mapSet m opt.canonical (lookupD m opt.canonical ++ [param])) u
        toks2 m2 u2) :
      Reaches options collect (tok :: param :: rest) m u toks2 m2 u2

/-! Concrete declarations used in the examples below. -/

/-- An OPTIONAL value-bearing option `--host`. -/
def hostOpt : option_t := option_t.make ["--host"] .OPTIONAL

/-- An OPTIONAL_NO_PARAMETER flag `--verbose` (max_appearances = 1). -/
def verboseOpt : option_t := option_t.make ["--verbose"] .OPTIONAL_NO_PARAMETER

/-- A MANDATORY value-bearing option `--file`. -/
def fileOpt : option_t := option_t.make ["--file"] .MANDATORY

/-- An OPTIONAL option `--port` with explicit default `"8080"`. -/
def portOpt : option_t :=
  { names := ["--port"], min_appearances := 0, max_appearances := 1,
    no_parameter := false, default_values := ["8080"] }

/-- An OPTIONAL option with default `"da"`, declared names `x` and `a`,
whose canonical name is `x`. -/
def dupOptA : option_t :=
  { names := ["x", "a"], min_appearances := 0, max_appearances := 1,
    no_parameter := false, default_values := ["da"] }

/-- An OPTIONAL option with default `"db"` whose only name, hence
canonical name, is also `x`. -/
def dupOptB : option_t :=
  { names := ["x"], min_appearances := 0, max_appearances := 1,
    no_parameter := false, default_values := ["db"] }

/-- A MANDATORY option whose canonical name is also `x`. -/
def dupOptM : option_t := option_t.make ["x"] .MANDATORY

/-! Helper lemmas about the map model. -/

theorem mapLookup_append (m m2 : values_map) (k : String) :
    mapLookup (m ++ m2) k =
      match mapLookup m k with
      | some v => some v
      | none => mapLookup m2 k := by
  induction m with
  | nil => simp [mapLookup]
  | cons p rest ih =>
    by_cases h : p.1 = k <;> simp [mapLookup, h, ih]

theorem mapLookup_mapSet_self (m : values_map) (k : String) (v : List String) :
    mapLookup (mapSet m k v) k = some v := by
  induction m with
  | nil => simp [mapSet, mapLookup]
  | cons p rest ih =>
    by_cases h : p.1 = k <;> simp [mapSet, mapLookup, h, ih]

theorem mapLookup_mapSet_ne (m : values_map) (k k2 : String) (v : List String)
    (h : k ≠ k2) : mapLookup (mapSet m k v) k2 = mapLookup m k2 := by
  induction m with
  | nil => simp [mapSet, mapLookup, h]
  | cons p rest ih =>
    by_cases h2 : p.1 = k
    · simp [mapSet, mapLookup, h2, h]
    · simp [mapSet, mapLookup, h2, ih]

theorem mapLookup_mapInsert_ne (m : values_map) (k k2 : String)
    (v : List String) (h : k ≠ k2) :
    mapLookup (mapInsert m k v) k2 = mapLookup m k2 := by
  unfold mapInsert
  cases hm : mapLookup m k with
  | some w => rfl
  | none =>
    simp only [mapLookup_append, mapLookup, if_neg h]
    cases mapLookup m k2 <;> rfl

theorem mapLookup_mapInsert_none (m : values_map) (k : String)
    (v : List String) (h : mapLookup m k = none) :
    mapLookup (mapInsert m k v) k = some v := by
  simp [mapInsert, h, mapLookup_append, mapLookup]

theorem mapInsert_preserves_some (m : values_map) (k k2 : String)
    (v v2 : List String) (h : mapLookup m k2 = some v2) :
    mapLookup (mapInsert m k v) k2 = some v2 := by
  unfold mapInsert
  cases hm : mapLookup m k with
  | some w => exact h
  | none => simp [mapLookup_append, h]

theorem find_option_mem (tok : String) (options : List option_t)
    (o : option_t) (h : find_option tok options = some o) :
    o ∈ options ∧ tok ∈ o.names := by
  induction options with
  | nil => simp [find_option] at h
  | cons o2 rest ih =>
    by_cases h2 : tok ∈ o2.names
    · simp [find_option, h2] at h
      subst h
      exact ⟨List.mem_cons_self _ _, h2⟩
    · simp [find_option, h2] at h
      rcases ih h with ⟨hmem, hname⟩
      exact ⟨List.mem_cons_of_mem _ hmem, hname⟩

/-! Helper lemmas about the default-filling pass. -/

theorem insert_defaults_preserves_some (options : List option_t)
    (m : values_map) (k : String) (v : List String)
    (h : mapLookup m k = some v) :
    mapLookup (insert_defaults options m) k = some v := by
  induction options generalizing m with
  | nil => exact h
  | cons o rest ih =>
    unfold insert_defaults
    by_cases h0 : o.min_appearances = 0
    · exact ih _ (by simpa [h0] using mapInsert_preserves_some m o.canonical k _ v h)
    · simpa [h0] using ih _ h

theorem insert_defaults_none (options : List option_t) (m : values_map)
    (k : String)
    (hopts : ∀ o ∈ options, o.canonical = k → o.min_appearances ≠ 0)
    (h : mapLookup m k = none) :
    mapLookup (insert_defaults options m) k = none := by
  induction options generalizing m with
  | nil => exact h
  | cons o rest ih =>
    unfold insert_defaults
    by_cases h0 : o.min_appearances = 0
    · have hne : o.canonical ≠ k := fun hc =>
        (hopts o (List.mem_cons_self _ _) hc) h0
      refine ih _ (fun o2 ho2 => hopts o2 (List.mem_cons_of_mem _ ho2)) ?_
      simp [h0, mapLookup_mapInsert_ne m _ _ _ hne, h]
    · simpa [h0] using
        ih _ (fun o2 ho2 => hopts o2 (List.mem_cons_of_mem _ ho2)) h

theorem insert_defaults_hit (options : List option_t) (m : values_map)
    (opt : option_t) (hmem : opt ∈ options)
    (hnodup : (options.map option_t.canonical).Nodup)
    (hmin : opt.min_appearances = 0)
    (h : mapLookup m opt.canonical = none) :
    mapLookup (insert_defaults options m) opt.canonical =
      some opt.default_values := by
  induction options generalizing m with
  | nil => simp at hmem
  | cons o rest ih =>
    rcases List.mem_cons.mp hmem with heq | hmem2
    · subst heq
      unfold insert_defaults
      simp only [hmin, if_pos rfl]
      refine insert_defaults_preserves_some rest _ _ _ ?_
      exact mapLookup_mapInsert_none m _ _ h
    · have hnd : (o.canonical :: rest.map option_t.canonical).Nodup := by
        simpa using hnodup
      have hrest : (rest.map option_t.canonical).Nodup := hnd.of_cons
      have hne : o.canonical ≠ opt.canonical := by
        intro hc
        rw [List.nodup_cons] at hnd
        exact hnd.1 (hc ▸ List.mem_map_of_mem option_t.canonical hmem2)
      unfold insert_defaults
      by_cases h0 : o.min_appearances = 0
      · refine ih _ hmem2 hrest ?_
        simp [h0, mapLookup_mapInsert_ne m _ _ _ hne, h]
      · simpa [h0] using ih _ hmem2 hrest h

/-- Keys never referenced stay absent throughout the token pass: if no
token of the input resolves to an option whose canonical name is `c`,
the accumulated map never acquires key `c`. -/
theorem parse_loop_absent (options : List option_t) (collect : Bool)
    (c : String) (toks : List String) (m : values_map) (u : List String)
    (m2 : values_map) (u2 : List String)
    (hok : parse_loop options collect toks m u = .ok (m2, u2))
    (hm : mapLookup m c = none)
    (htoks : ∀ tok ∈ toks, ∀ o, find_option tok options = some o →
      o.canonical ≠ c) :
    mapLookup m2 c = none := by
  induction toks, m, u using parse_loop.induct options collect
    generalizing m2 u2 with
  | case1 m u =>
    simp only [parse_loop] at hok
    cases hok
    exact hm
  | case2 tok rest m u hfind hcol ih =>
    simp only [parse_loop, hfind, if_pos hcol] at hok
    exact ih _ _ hok hm (fun t ht => htoks t (List.mem_cons_of_mem _ ht))
  | case3 tok rest m u hfind hcol hlooks =>
    simp [parse_loop, hfind, hcol, hlooks] at hok
  | case4 tok rest m u hfind hcol hlooks =>
    simp [parse_loop, hfind, hcol, hlooks] at hok
  | case5 tok rest m u opt hfind hfull =>
    simp [parse_loop, hfind, hfull] at hok
  | case6 tok rest m u opt hfind hfull hflag ih =>
    simp only [parse_loop, hfind, if_neg hfull, if_pos hflag] at hok
    have hne : opt.canonical ≠ c :=
      htoks tok (List.mem_cons_self _ _) opt hfind
    refine ih _ _ hok ?_ (fun t ht => htoks t (List.mem_cons_of_mem _ ht))
    rw [mapLookup_mapSet_ne _ _ _ _ hne]
    exact hm
  | case7 tok m u opt hfind hfull hflag =>
    simp [parse_loop, hfind, hfull, hflag] at hok
  | case8 tok m u opt hfind hfull hflag param rest2 hlooks =>
    simp [parse_loop, hfind, hfull, hflag, hlooks] at hok
  | case9 tok m u opt hfind hfull hflag param rest2 hlooks ih =>
    simp only [parse_loop, hfind, if_neg hfull, if_neg hflag,
      if_neg hlooks] at hok
    have hne : opt.canonical ≠ c :=
      htoks tok (List.mem_cons_self _ _) opt hfind
    refine ih _ _ hok ?_ ?_
    · rw [mapLookup_mapSet_ne _ _ _ _ hne]
      exact hm
    · intro t ht
      exact htoks t (List.mem_cons_of_mem _ (List.mem_cons_of_mem _ ht))

/-- The loop's outcome is invariant along reachability: the final
result computed from a reached intermediate state is the result of the
whole run. -/
theorem parse_loop_of_reaches (options : List option_t) (collect : Bool)
    (toks : List String) (m : values_map) (u toks2 : List String)
    (m2 : values_map) (u2 : List String)
    (h : Reaches options collect toks m u toks2 m2 u2) :
    parse_loop options collect toks m u =
      parse_loop options collect toks2 m2 u2 := by
  induction h with
  | refl toks m u => rfl
  | skip tok rest m u toks2 m2 u2 hfind hcol htail ih =>
    rw [← ih]
    simp only [parse_loop, hfind, if_pos hcol]
  | flag tok rest m u opt toks2 m2 u2 hfind hroom hnp htail ih =>
    rw [← ih]
    simp only [parse_loop, hfind, if_neg hroom, if_pos hnp]
  | value tok param rest m u opt toks2 m2 u2 hfind hroom hnp hparam htail ih =>
    rw [← ih]
    simp only [parse_loop, hfind, if_neg hroom]
    rw [if_neg (by simp [hnp]), if_neg (by simp [hparam])]

/-- A TooManyAppearances failure always arises at a reachable loop
state whose head token resolves to an option whose accumulated value
list is already at its appearance cap. -/
theorem tooMany_reaches (options : List option_t) (collect : Bool)
    (toks : List String) (m : values_map) (u : List String) (tok : String)
    (herr : parse_loop options collect toks m u =
      .error (.TooManyAppearances tok)) :
    ∃ rest m2 u2 opt, Reaches options collect toks m u (tok :: rest) m2 u2 ∧
      find_option tok options = some opt ∧
      (lookupD m2 opt.canonical).length = opt.max_appearances := by
  induction toks, m, u using parse_loop.induct options collect with
  | case1 m u => simp [parse_loop] at herr
  | case2 tok2 rest m u hfind hcol ih =>
    simp only [parse_loop, hfind, if_pos hcol] at herr
    rcases ih herr with ⟨rest2, m2, u2, opt, hr, hfind2, hlen⟩
    exact ⟨rest2, m2, u2, opt,
      .skip tok2 rest m u _ _ _ hfind hcol hr, hfind2, hlen⟩
  | case3 tok2 rest m u hfind hcol hlooks =>
    simp [parse_loop, hfind, hcol, hlooks] at herr
  | case4 tok2 rest m u hfind hcol hlooks =>
    simp [parse_loop, hfind, hcol, hlooks] at herr
  | case5 tok2 rest m u opt hfind hfull =>
    simp only [parse_loop, hfind, if_pos hfull] at herr
    rcases herr with herr
    cases herr
    exact ⟨rest, m, u, opt, .refl _ _ _, hfind, hfull⟩
  | case6 tok2 rest m u opt hfind hfull hflag ih =>
    simp only [parse_loop, hfind, if_neg hfull, if_pos hflag] at herr
    rcases ih herr with ⟨rest2, m2, u2, opt2, hr, hfind2, hlen⟩
    exact ⟨rest2, m2, u2, opt2,
      .flag tok2 rest m u opt _ _ _ hfind hfull hflag hr, hfind2, hlen⟩
  | case7 tok2 m u opt hfind hfull hflag =>
    simp [parse_loop, hfind, hfull, hflag] at herr
  | case8 tok2 m u opt hfind hfull hflag param rest2 hlooks =>
    simp [parse_loop, hfind, hfull, hflag, hlooks] at herr
  | case9 tok2 m u opt hfind hfull hflag param rest2 hlooks ih =>
    simp only [parse_loop, hfind, if_neg hfull, if_neg hflag,
      if_neg hlooks] at herr
    rcases ih herr with ⟨rest3, m2, u2, opt2, hr, hfind2, hlen⟩
    refine ⟨rest3, m2, u2, opt2, ?_, hfind2, hlen⟩
    exact .value tok2 param rest2 m u opt _ _ _ hfind hfull
      (by simpa using hflag) (by simpa using hlooks) hr

/-- Conversely, reaching a state whose head token resolves to an option
already at its cap makes the whole parse fail with TooManyAppearances
at that occurrence. -/
theorem reaches_tooMany (options : List option_t) (collect : Bool)
    (toks : List String) (m : values_map) (u : List String) (tok : String)
    (rest : List String) (m2 : values_map) (u2 : List String)
    (opt : option_t)
    (hr : Reaches options collect toks m u (tok :: rest) m2 u2)
    (hfind : find_option tok options = some opt)
    (hlen : (lookupD m2 opt.canonical).length = opt.max_appearances) :
    parse_loop options collect toks m u =
      .error (.TooManyAppearances tok) := by
  rw [parse_loop_of_reaches _ _ _ _ _ _ _ _ hr]
  simp only [parse_loop, hfind, if_pos hlen]

/-- do_parse_command_line fails exactly when its token loop fails. -/
theorem do_parse_error_iff (tokens : List String) (options : List option_t)
    (collect : Bool) (e : parse_error_t) :
    do_parse_command_line tokens options collect = .error e ↔
      parse_loop options collect tokens [] [] = .error e := by
  unfold do_parse_command_line
  cases h : parse_loop options collect tokens [] [] with
  | error e2 => simp
  | ok p => cases p; simp

/-! Helper lemmas about word wrapping. -/

/-- Invariant of the packing loop: every emitted line either fits in
`width` or is a single word taken unchanged from the word list. -/
theorem wrap_loop_mem (width : Nat) (allWords : List String) :
    ∀ (ws ret : List String) (cur line : String),
      (∀ l ∈ ret, l.length ≤ width ∨ l ∈ allWords) →
      (cur.length ≤ width ∨ cur ∈ allWords) →
      (∀ w ∈ ws, w ∈ allWords) →
      line ∈ wrap_loop width ws ret cur →
      line.length ≤ width ∨ line ∈ allWords := by
  intro ws
  induction ws with
  | nil =>
    intro ret cur line hret hcur hws hline
    simp only [wrap_loop, List.mem_append, List.mem_singleton] at hline
    rcases hline with h | h
    · exact hret line h
    · exact h ▸ hcur
  | cons w ws2 ih =>
    intro ret cur line hret hcur hws hline
    have hw : w ∈ allWords := hws w (List.mem_cons_self _ _)
    have hws2 : ∀ w2 ∈ ws2, w2 ∈ allWords :=
      fun w2 h2 => hws w2 (List.mem_cons_of_mem _ h2)
    by_cases hemp : cur.isEmpty
    · rw [wrap_loop, if_pos hemp] at hline
      exact ih ret w line hret (Or.inr hw) hws2 hline
    · by_cases hfit : cur.length + 1 + w.length ≤ width
      · rw [wrap_loop, if_neg hemp, if_pos hfit] at hline
        refine ih ret _ line hret (Or.inl ?_) hws2 hline
        calc (cur ++ " " ++ w).length = cur.length + 1 + w.length := by
              simp [String.length_append]
              decide
          _ ≤ width := hfit
      · rw [wrap_loop, if_neg hemp, if_neg hfit] at hline
        refine ih (ret ++ [cur]) w line ?_ (Or.inr hw) hws2 hline
        intro l hl
        rcases List.mem_append.mp hl with h | h
        · exact hret l h
        · exact (List.mem_singleton.mp h) ▸ hcur

/-- Scanning an all-whitespace character run from the skipping state
produces no words. -/
theorem split_words_go_all_space (l : List Char)
    (h : ∀ c ∈ l, isspace_char c = true) :
    split_words_go none l = [] := by
  induction l with
  | nil => rfl
  | cons c cs ih =>
    rw [split_words_go, if_pos (h c (List.mem_cons_self _ _))]
    exact ih (fun c2 h2 => h c2 (List.mem_cons_of_mem _ h2))

/-! Helper lemmas about help formatting. -/

theorem inner_foldl_le (lines : List help_line_t) (acc : Nat) :
    acc ≤ lines.foldl
      (fun a line => max a line.syntax_description.length) acc := by
  induction lines generalizing acc with
  | nil => exact Nat.le_refl _
  | cons l rest ih =>
    exact Nat.le_trans (Nat.le_max_left _ _) (ih _)

theorem inner_foldl_mem (lines : List help_line_t) (acc : Nat)
    (line : help_line_t) (h : line ∈ lines) :
    line.syntax_description.length ≤
      lines.foldl (fun a l => max a l.syntax_description.length) acc := by
  induction lines generalizing acc with
  | nil => simp at h
  | cons l rest ih =>
    rcases List.mem_cons.mp h with heq | hmem
    · subst heq
      exact Nat.le_trans (Nat.le_max_right _ _) (inner_foldl_le rest _)
    · exact ih _ hmem

theorem outer_foldl_le (help : List help_section_t) (acc : Nat) :
    acc ≤ help.foldl
      (fun a s => s.help_lines.foldl
        (fun a2 l => max a2 l.syntax_description.length) a) acc := by
  induction help generalizing acc with
  | nil => exact Nat.le_refl _
  | cons s rest ih =>
    exact Nat.le_trans (inner_foldl_le s.help_lines acc) (ih _)

theorem max_syntax_description_length_bound (help : List help_section_t)
    (sec : help_section_t) (line : help_line_t)
    (hs : sec ∈ help) (hl : line ∈ sec.help_lines) :
    line.syntax_description.length ≤ max_syntax_description_length help := by
  unfold max_syntax_description_length
  suffices hgen : ∀ acc : Nat, line.syntax_description.length ≤
      help.foldl (fun a s =>
        s.help_lines.foldl
          (fun a2 l => max a2 l.syntax_description.length) a) acc from hgen 0
  induction help with
  | nil => simp at hs
  | cons s rest ih =>
    intro acc
    rcases List.mem_cons.mp hs with heq | hmem
    · subst heq
      exact Nat.le_trans (inner_foldl_mem sec.help_lines acc line hl)
        (outer_foldl_le rest _)
    · exact ih hmem _

/-- C6 (corrected): the claim says every line returned by
word_wrap(s, w) has length at most w.  A single word longer than w is
emitted uncut (see the counterexample), so the amended statement proved
here is: every returned line either has length at most w or is one of
the whitespace-separated words of s, placed alone on its line. -/
theorem claim_C6_thm (s : String) (width : Nat) (line : String)
    (h : line ∈ word_wrap s width) :
    line.length ≤ width ∨ line ∈ split_by_spaces s := by
  refine wrap_loop_mem width (split_by_spaces s) (split_by_spaces s) [] ""
    line ?_ ?_ (fun w hw => hw) h
  · intro l hl
    simp at hl
  · left
    have h0 : ("" : String).length = 0 := rfl
    omega

/-- C6 witness: the wrapped line "aa bb" of word_wrap "aa bb" 5
satisfies the amended bound. -/
theorem claim_C6_witness :
    ("aa bb" : String).length ≤ 5 ∨
      ("aa bb" : String) ∈ split_by_spaces "aa bb" :=
  claim_C6_thm "aa bb" 5 "aa bb" (by decide)

/-- C6 counterexample: word_wrap "abcd" 3 returns the line "abcd" of
length 4 > 3, refuting the claim as stated. -/
theorem claim_C6_counterexample :
    ("abcd" : String) ∈ word_wrap "abcd" 3 ∧
      ¬(("abcd" : String).length ≤ 3) := by
  decide

/-- C7 counterexample: word_wrap "a b c" 3 is not ["a", "b", "c"]:
"a b" has length exactly 3, so the greedy packer keeps "a" and "b" on
one line. -/
theorem claim_C7_counterexample :
    word_wrap "a b c" 3 ≠ ["a", "b", "c"] := by
  decide

/-- C7 (corrected): word_wrap "a b c" 3 returns the two-line sequence
["a b", "c"], not the claimed three-line sequence. -/
theorem claim_C7_thm : word_wrap "a b c" 3 = ["a b", "c"] := by
  decide

/-- C8: word_wrap applied to a string with no non-whitespace characters
(the empty string included) returns exactly one empty string, for every
width. -/
theorem claim_C8_thm (s : String) (width : Nat)
    (h : ∀ c ∈ s.data, isspace_char c = true) :
    word_wrap s width = [""] := by
  unfold word_wrap split_by_spaces
  rw [split_words_go_all_space s.data h]
  rfl

/-- C8 witness: word_wrap "" 10 returns exactly one empty string. -/
theorem claim_C8_witness : word_wrap "" 10 = [""] :=
  claim_C8_thm "" 10 (by decide)

/-- C9: format_help's per-line padding count
`indent_width - (2 + syntax_description.size())` never underflows:
every line's syntax description length is at most
max_syntax_description_length, and indent_width adds 4 to that, so the
subtrahend is bounded by indent_width; consequently the size_t
subtraction (line_padding) equals the exact natural subtraction
whenever indent_width fits in size_t. -/
theorem claim_C9_thm (help : List help_section_t) (sec : help_section_t)
    (line : help_line_t) (hs : sec ∈ help) (hl : line ∈ sec.help_lines) :
    2 + line.syntax_description.length ≤ indent_width help ∧
    (indent_width help < 2 ^ 64 →
      line_padding (indent_width help) line =
        indent_width help - (2 + line.syntax_description.length)) := by
  have hb := max_syntax_description_length_bound help sec line hs hl
  constructor
  · unfold indent_width
    omega
  · intro hlt
    unfold line_padding size_sub
    unfold indent_width at hlt ⊢
    omega

/-- C9 witness: the bound instantiated on a one-section, one-line help
list. -/
theorem claim_C9_witness :
    2 + (help_line_t.mk "--port p" "b").syntax_description.length ≤
      indent_width [help_section_t.mk "S" [help_line_t.mk "--port p" "b"]] ∧
    (indent_width [help_section_t.mk "S" [help_line_t.mk "--port p" "b"]] <
        2 ^ 64 →
      line_padding
          (indent_width [help_section_t.mk "S"
            [help_line_t.mk "--port p" "b"]])
          (help_line_t.mk "--port p" "b") =
        indent_width [help_section_t.mk "S" [help_line_t.mk "--port p" "b"]] -
          (2 + (help_line_t.mk "--port p" "b").syntax_description.length)) :=
  claim_C9_thm [help_section_t.mk "S" [help_line_t.mk "--port p" "b"]]
    (help_section_t.mk "S" [help_line_t.mk "--port p" "b"])
    (help_line_t.mk "--port p" "b") (by decide) (by decide)

/-- Canonical-name injectivity extracted from a Nodup hypothesis. -/
theorem canonical_inj (options : List option_t)
    (hnodup : (options.map option_t.canonical).Nodup)
    (o opt : option_t) (ho : o ∈ options) (hopt : opt ∈ options)
    (hc : o.canonical = opt.canonical) : o = opt :=
  List.inj_on_of_nodup_map hnodup ho hopt hc

/-- Tokens never naming an option keep its canonical name out of the
token-pass map. -/
theorem parse_phase_absent (options : List option_t) (collect : Bool)
    (tokens : List String) (m0 : values_map) (u0 : List String)
    (opt : option_t)
    (hnodup : (options.map option_t.canonical).Nodup)
    (hpl : parse_loop options collect tokens [] [] = .ok (m0, u0))
    (hmem : opt ∈ options)
    (hnames : ∀ n ∈ opt.names, n ∉ tokens) :
    mapLookup m0 opt.canonical = none := by
  refine parse_loop_absent options collect opt.canonical tokens [] [] m0 u0
    hpl rfl ?_
  intro t ht o hfind hc
  obtain ⟨homem, htname⟩ := find_option_mem t options o hfind
  have heq : o = opt := canonical_inj options hnodup o opt homem hmem hc
  exact hnames t (heq ▸ htname) ht

/-- C1 (corrected): with pairwise-distinct canonical names added as a
hypothesis (the counterexample shows the claim fails without it), every
declared option with min_appearances = 0 none of whose names occurs
among the tokens ends up in the successful result map with exactly its
default_values; the second conjunct shows parsed entries are never
overwritten by the default pass; the last two conjuncts record that the
defaultless constructor yields an empty default_values and the
default-carrying constructor a one-element one. -/
theorem claim_C1_thm :
    (∀ (options : List option_t) (collect : Bool) (tokens : List String)
        (m : values_map) (u : List String) (opt : option_t),
      (options.map option_t.canonical).Nodup →
      do_parse_command_line tokens options collect = .ok (m, u) →
      opt ∈ options → opt.min_appearances = 0 →
      (∀ n ∈ opt.names, n ∉ tokens) →
      mapLookup m opt.canonical = some opt.default_values) ∧
    (∀ (options : List option_t) (m0 : values_map) (k : String)
        (v : List String),
      mapLookup m0 k = some v →
      mapLookup (insert_defaults options m0) k = some v) ∧
    (∀ (names : List String) (a : appearance_t),
      (option_t.make names a).default_values = []) ∧
    (∀ (names : List String) (a : appearance_t) (d : String)
        (o : option_t),
      option_t.makeWithDefault names a d = some o →
      o.default_values = [d]) := by
  refine ⟨?_, ?_, ?_, ?_⟩
  · intro options collect tokens m u opt hnodup hok hmem hmin hnames
    unfold do_parse_command_line at hok
    cases hpl : parse_loop options collect tokens [] [] with
    | error e =>
      rw [hpl] at hok
      exact absurd hok (by simp)
    | ok p =>
      obtain ⟨m0, u0⟩ := p
      rw [hpl] at hok
      simp only [Except.ok.injEq, Prod.mk.injEq] at hok
      obtain ⟨hm, hu⟩ := hok
      subst hm
      exact insert_defaults_hit options m0 opt hmem hnodup hmin
        (parse_phase_absent options collect tokens m0 u0 opt hnodup hpl
          hmem hnames)
  · exact fun options m0 k v h => insert_defaults_preserves_some options m0 k v h
  · intro names a
    cases a <;> rfl
  · intro names a d o h
    cases a <;> simp [option_t.makeWithDefault] at h <;> subst h <;> rfl

/-- C1 witness: an absent OPTIONAL option `--port` with default "8080"
appears in the result map with exactly ["8080"]. -/
theorem claim_C1_witness :
    mapLookup [("--port", ["8080"])] portOpt.canonical =
      some portOpt.default_values :=
  claim_C1_thm.1 [portOpt] false [] [("--port", ["8080"])] [] portOpt
    (by decide) rfl (by decide) (by decide) (by decide)

/-- C1 counterexample: two constructible OPTIONAL options share the
canonical name `x` with different defaults; parsing no tokens succeeds,
yet dupOptB (min_appearances 0, no name among the tokens) is mapped to
dupOptA's defaults, not its own. -/
theorem claim_C1_counterexample :
    option_t.makeWithDefault ["x", "a"] .OPTIONAL "da" = some dupOptA ∧
    option_t.makeWithDefault ["x"] .OPTIONAL "db" = some dupOptB ∧
    dupOptB.min_appearances = 0 ∧ dupOptB.names = ["x"] ∧
    do_parse_command_line [] [dupOptA, dupOptB] false =
      .ok ([("x", ["da"])], []) ∧
    mapLookup [("x", ["da"])] dupOptB.canonical ≠
      some dupOptB.default_values :=
  ⟨rfl, rfl, rfl, rfl, rfl, by decide⟩

/-- C2: a TooManyAppearances failure happens exactly when the loop
reaches an occurrence of a declared option whose accumulated value list
for its canonical name already has max_appearances entries (so never at
an earlier occurrence), and in particular the OPTIONAL_NO_PARAMETER
flag `--verbose` (max_appearances 1) appearing twice fails with
TooManyAppearances on its second occurrence. -/
theorem claim_C2_thm :
    (∀ (options : List option_t) (collect : Bool) (tokens : List String)
        (tok : String),
      do_parse_command_line tokens options collect =
          .error (.TooManyAppearances tok) ↔
        ∃ rest m u opt,
          Reaches options collect tokens [] [] (tok :: rest) m u ∧
          find_option tok options = some opt ∧
          (lookupD m opt.canonical).length = opt.max_appearances) ∧
    do_parse_command_line ["--verbose", "--verbose"] [verboseOpt] false =
      .error (.TooManyAppearances "--verbose") := by
  constructor
  · intro options collect tokens tok
    rw [do_parse_error_iff]
    constructor
    · intro herr
      exact tooMany_reaches options collect tokens [] [] tok herr
    · rintro ⟨rest, m, u, opt, hr, hfind, hlen⟩
      exact reaches_tooMany options collect tokens [] [] tok rest m u opt
        hr hfind hlen
  · rfl

/-- C3: at an occurrence of a declared value-bearing option below its
appearance cap, the parser fails with MissingParameter when no token
remains, fails with ParameterLooksLikeOption when the next token starts
with '-' (whatever the collection mode), and otherwise consumes the
next token as the option's value; concretely
["--host", "-x", "value"] with `--host` declared and collection
disabled raises ParameterLooksLikeOption. -/
theorem claim_C3_thm :
    (∀ (options : List option_t) (collect : Bool) (tok : String)
        (rest : List String) (m : values_map) (u : List String)
        (opt : option_t),
      find_option tok options = some opt →
      opt.no_parameter = false →
      (lookupD m opt.canonical).length ≠ opt.max_appearances →
      (rest = [] →
        parse_loop options collect (tok :: rest) m u =
          .error (.MissingParameter tok)) ∧
      (∀ param rest2, rest = param :: rest2 →
        looks_like_option_name param = true →
        parse_loop options collect (tok :: rest) m u =
          .error (.ParameterLooksLikeOption tok param)) ∧
      (∀ param rest2, rest = param :: rest2 →
        looks_like_option_name param = false →
        parse_loop options collect (tok :: rest) m u =
          parse_loop options collect rest2
            (mapSet m opt.canonical (lookupD m opt.canonical ++ [param]))
            u)) ∧
    do_parse_command_line ["--host", "-x", "value"] [hostOpt] false =
      .error (.ParameterLooksLikeOption "--host" "-x") := by
  constructor
  · intro options collect tok rest m u opt hfind hnp hroom
    refine ⟨?_, ?_, ?_⟩
    · rintro rfl
      simp only [parse_loop, hfind, if_neg hroom]
      rw [if_neg (by simp [hnp])]
    · rintro param rest2 rfl hlooks
      simp only [parse_loop, hfind, if_neg hroom]
      rw [if_neg (by simp [hnp]), if_pos hlooks]
    · rintro param rest2 rfl hlooks
      simp only [parse_loop, hfind, if_neg hroom]
      rw [if_neg (by simp [hnp]), if_neg (by simp [hlooks])]
  · rfl

/-- C3 witness: a declared value-bearing option as the last token fails
with MissingParameter. -/
theorem claim_C3_witness :
    parse_loop [hostOpt] false ["--host"] [] [] =
      .error (.MissingParameter "--host") :=
  (claim_C3_thm.1 [hostOpt] false "--host" [] [] [] hostOpt (by decide)
    (by decide) (by decide)).1 rfl

/-- C4: an unmatched token is appended (in input order) to the
unrecognized list with no error and no change to the value map when
collection is on; with collection off it raises UnrecognizedOption when
it starts with '-' and UnexpectedValue otherwise; the concrete conjunct
shows two unmatched tokens collected in input order with parsing
succeeding. -/
theorem claim_C4_thm :
    (∀ (options : List option_t) (collect : Bool) (tok : String)
        (rest : List String) (m : values_map) (u : List String),
      find_option tok options = none →
      (collect = true →
        parse_loop options collect (tok :: rest) m u =
          parse_loop options collect rest m (u ++ [tok])) ∧
      (collect = false → looks_like_option_name tok = true →
        parse_loop options collect (tok :: rest) m u =
          .error (.UnrecognizedOption tok)) ∧
      (collect = false → looks_like_option_name tok = false →
        parse_loop options collect (tok :: rest) m u =
          .error (.UnexpectedValue tok))) ∧
    do_parse_command_line ["--host", "val", "-z", "w"] [hostOpt] true =
      .ok ([("--host", ["val"])], ["-z", "w"]) := by
  constructor
  · intro options collect tok rest m u hfind
    refine ⟨?_, ?_, ?_⟩
    · intro hcol
      simp only [parse_loop, hfind, if_pos hcol]
    · intro hcol hlooks
      subst hcol
      simp only [parse_loop, hfind]
      rw [if_neg (by simp), if_pos hlooks]
    · intro hcol hlooks
      subst hcol
      simp only [parse_loop, hfind]
      rw [if_neg (by simp), if_neg (by simp [hlooks])]
  · rfl

/-- C4 witness: with collection disabled, the undeclared token "-x"
raises UnrecognizedOption. -/
theorem claim_C4_witness :
    parse_loop [] false ["-x"] [] [] =
      .error (.UnrecognizedOption "-x") :=
  (claim_C4_thm.1 [] false "-x" [] [] [] rfl).2.1 rfl (by decide)

/-- C5 (corrected): parsing an empty token sequence always succeeds (no
minimum-cardinality validation), and — with pairwise-distinct canonical
names added as a hypothesis, which the counterexample shows is needed —
an option with min_appearances >= 1 none of whose names occurs among
the tokens is absent from the successful result map. -/
theorem claim_C5_thm :
    (∀ (options : List option_t) (collect : Bool),
      ∃ m, do_parse_command_line [] options collect = .ok (m, [])) ∧
    (∀ (options : List option_t) (collect : Bool) (tokens : List String)
        (m : values_map) (u : List String) (opt : option_t),
      (options.map option_t.canonical).Nodup →
      do_parse_command_line tokens options collect = .ok (m, u) →
      opt ∈ options → 1 ≤ opt.min_appearances →
      (∀ n ∈ opt.names, n ∉ tokens) →
      mapLookup m opt.canonical = none) := by
  constructor
  · intro options collect
    exact ⟨insert_defaults options [], rfl⟩
  · intro options collect tokens m u opt hnodup hok hmem hmin hnames
    unfold do_parse_command_line at hok
    cases hpl : parse_loop options collect tokens [] [] with
    | error e =>
      rw [hpl] at hok
      exact absurd hok (by simp)
    | ok p =>
      obtain ⟨m0, u0⟩ := p
      rw [hpl] at hok
      simp only [Except.ok.injEq, Prod.mk.injEq] at hok
      obtain ⟨hm, hu⟩ := hok
      subst hm
      refine insert_defaults_none options m0 opt.canonical ?_
        (parse_phase_absent options collect tokens m0 u0 opt hnodup hpl
          hmem hnames)
      intro o ho hc
      have heq : o = opt := canonical_inj options hnodup o opt ho hmem hc
      subst heq
      omega

/-- C5 witness: a MANDATORY option absent from an empty command line
produces no result-map entry and no error. -/
theorem claim_C5_witness :
    mapLookup [] fileOpt.canonical = none :=
  claim_C5_thm.2 [fileOpt] false [] [] [] fileOpt (by decide) rfl
    (by decide) (by decide) (by decide)

/-- C5 counterexample: a MANDATORY option whose canonical name `x` is
shared with a min_appearances = 0 option is not absent from the result
map after parsing an empty token sequence: the default pass inserted
the key `x`. -/
theorem claim_C5_counterexample :
    dupOptM.min_appearances ≥ 1 ∧ dupOptM.names = ["x"] ∧
    do_parse_command_line [] [dupOptB, dupOptM] false =
      .ok ([("x", ["db"])], []) ∧
    mapLookup [("x", ["db"])] dupOptM.canonical = some ["db"] :=
  ⟨by decide, rfl, rfl, rfl⟩

/-- C10: parse failure is atomic: whenever
do_parse_command_line raises a parse error, both caller-supplied
outputs are returned unchanged, because accumulation happens in local
collections swapped in only after the pass and the default insertion
complete. -/
theorem claim_C10_thm (tokens : List String) (options : List option_t)
    (map_out : values_map) (unrec_out : Option (List String))
    (e : parse_error_t) (m2 : values_map) (u2 : Option (List String))
    (h : do_parse_command_line_outs tokens options map_out unrec_out =
      (.error e, m2, u2)) :
    m2 = map_out ∧ u2 = unrec_out := by
  unfold do_parse_command_line_outs at h
  cases hpl : parse_loop options unrec_out.isSome tokens [] [] with
  | error e2 =>
    rw [hpl] at h
    simp only [Prod.mk.injEq] at h
    exact ⟨h.2.1.symm, h.2.2.symm⟩
  | ok p =>
    obtain ⟨m0, u0⟩ := p
    rw [hpl] at h
    simp at h

/-- C10 witness: a failing parse leaves concrete preexisting output
contents untouched. -/
theorem claim_C10_witness :
    ([("k", ["v"])] : values_map) = [("k", ["v"])] ∧
      (none : Option (List String)) = none :=
  claim_C10_thm ["-x"] [] [("k", ["v"])] none (.UnrecognizedOption "-x")
    [("k", ["v"])] none (by rfl)

end Options
